import Mathlib

/-!
# Verification of the postbus SMTP server

Shallow embedding of the `nexiumapp/postbus` SMTP receiving server
(`src/session.rs`, `src/parser/mod.rs`, `src/response.rs`, `src/command.rs`)
together with proofs checking the natural-language specification against it.

The address-grammar combinators (`parse_domain`, `parse_subdomain`,
`parse_letdig`, `parse_ldhstr`) are translated from `src/parser/mod.rs`,
which builds them from nom's *streaming* combinators; the three-valued
result type `PRes` mirrors nom's `Ok` / `Err::Error` / `Err::Incomplete`.
The buffered line splitter `parse`, the per-line command parser
`parse_command` and the DATA-body decoder `parse_data_lines` are called by
`src/session.rs` and exercised by `src/parser/tests.rs` but their
definitions are not part of the source tree; those are modelled from the
spec (each such definition carries a `Modelled from the spec:` comment).
-/

namespace Postbus

/-- Result of a nom streaming parser: success with the parsed value and the
unconsumed remainder, a recoverable error, or `Incomplete` (more input
needed). Mirrors `IResult` with `nom::Err::{Error, Incomplete}`. -/
inductive PRes (α : Type) where
  | ok (val : α) (rest : List Char)
  | err
  | incomplete
deriving DecidableEq, Repr

/-- ASCII-alphanumeric test on a byte value, as in
`nom::character::is_alphanumeric` (`0x41..=0x5A | 0x61..=0x7A | 0x30..=0x39`). -/
def isAlnumByte (n : Nat) : Bool :=
  (65 ≤ n && n ≤ 90) || (97 ≤ n && n ≤ 122) || (48 ≤ n && n ≤ 57)

/-- The predicate used by `parse_letdig` in the source:
`is_alphanumeric(c as u8)`. The Rust cast `c as u8` truncates the Unicode
scalar value to its low byte, which this embedding reproduces with `% 256`. -/
def predLD (c : Char) : Bool := isAlnumByte (c.toNat % 256)

/-- The predicate used inside `parse_ldhstr`:
`is_alphanumeric(c as u8) || c == '-'`. -/
def ldhPred (c : Char) : Bool := predLD c || c = '-'

/-- ASCII alphanumeric on the character itself (no truncation); used to
state claims about "ASCII letters and digits" and in the spec-modelled
line grammar. -/
def asciiAlnum (c : Char) : Bool := isAlnumByte c.toNat

/-- `take_while_m_n(1, 1, p)` from nom (streaming): exactly one character
satisfying `p`; `Incomplete` on empty input. -/
def take1 (p : Char → Bool) : List Char → PRes (List Char)
  | [] => PRes.incomplete
  | c :: rest => if p c then PRes.ok [c] rest else PRes.err

/-- nom's `many0` (streaming), with fuel for termination. Call sites pass
`input.length + 1`, which is always sufficient because every inner parser
here consumes at least one character when it succeeds. Mirrors nom's loop:
stop (keeping what was collected) on `Error`, propagate `Incomplete`, and
fail if the inner parser succeeds without consuming input. -/
def many0F (p : List Char → PRes (List Char)) : Nat → List Char → PRes (List Char)
  | 0, _ => PRes.incomplete
  | Nat.succ fuel, input =>
    match p input with
    | PRes.err => PRes.ok [] input
    | PRes.incomplete => PRes.incomplete
    | PRes.ok v rest =>
      if rest = input then PRes.err
      else
        match many0F p fuel rest with
        | PRes.ok vs r2 => PRes.ok (v ++ vs) r2
        | e => e

/-- `parse_letdig` from `src/parser/mod.rs`:
`take_while_m_n(1, 1, |c| is_alphanumeric(c as u8))`. -/
def parse_letdig : List Char → PRes (List Char) := take1 predLD

/-- `parse_ldhstr` from `src/parser/mod.rs`:
`recognize(pair(many0(take_while_m_n(1, 1, alnum-or-hyphen)), parse_letdig))`. -/
def parse_ldhstr (input : List Char) : PRes (List Char) :=
  match many0F (take1 ldhPred) (input.length + 1) input with
  | PRes.ok run rest =>
    match parse_letdig rest with
    | PRes.ok v r => PRes.ok (run ++ v) r
    | PRes.err => PRes.err
    | PRes.incomplete => PRes.incomplete
  | PRes.err => PRes.err
  | PRes.incomplete => PRes.incomplete

/-- `parse_subdomain` from `src/parser/mod.rs`:
`recognize(pair(parse_letdig, many0(parse_ldhstr)))`. -/
def parse_subdomain (input : List Char) : PRes (List Char) :=
  match parse_letdig input with
  | PRes.ok v rest =>
    match many0F parse_ldhstr (rest.length + 1) rest with
    | PRes.ok vs r => PRes.ok (v ++ vs) r
    | PRes.err => PRes.err
    | PRes.incomplete => PRes.incomplete
  | PRes.err => PRes.err
  | PRes.incomplete => PRes.incomplete

/-- `opt(tag("."))` on streaming input: `Incomplete` on empty input
(`tag` needs one character), otherwise consume an optional dot. -/
def opt_tag_dot : List Char → PRes (List Char)
  | [] => PRes.incomplete
  | c :: rest => if c = '.' then PRes.ok ['.'] rest else PRes.ok [] (c :: rest)

/-- One iteration of the loop inside `parse_domain`:
`pair(opt(tag(".")), parse_subdomain)`. -/
def domTailIter (input : List Char) : PRes (List Char) :=
  match opt_tag_dot input with
  | PRes.ok v rest =>
    match parse_subdomain rest with
    | PRes.ok v2 r2 => PRes.ok (v ++ v2) r2
    | PRes.err => PRes.err
    | PRes.incomplete => PRes.incomplete
  | PRes.err => PRes.err
  | PRes.incomplete => PRes.incomplete

/-- `parse_domain` from `src/parser/mod.rs`:
`recognize(pair(parse_subdomain, many0(pair(opt(tag(".")), parse_subdomain))))`. -/
def parse_domain (input : List Char) : PRes (List Char) :=
  match parse_subdomain input with
  | PRes.ok v rest =>
    match many0F domTailIter (rest.length + 1) rest with
    | PRes.ok vs r => PRes.ok (v ++ vs) r
    | PRes.err => PRes.err
    | PRes.incomplete => PRes.incomplete
  | PRes.err => PRes.err
  | PRes.incomplete => PRes.incomplete

/-- The exact set of character lists the source's domain parser can consume
on complete input: one `predLD` character, then any sequence of further
`predLD` characters each optionally preceded by a single dot (so: no
leading/trailing dot and no two adjacent dots, and no hyphens, since
`parse_subdomain` only ever consumes a single alphanumeric). `domShapeTail`
recognises the part after the first character. -/
def domShapeTail : List Char → Bool
  | [] => true
  | c :: rest =>
    if predLD c then domShapeTail rest
    else if c = '.' then
      match rest with
      | [] => false
      | d :: rest2 => predLD d && domShapeTail rest2
    else false

/-- See `domShapeTail`. -/
def domShape : List Char → Bool
  | [] => false
  | c :: rest => predLD c && domShapeTail rest

/-- `Domain` from `src/command.rs`: `pub struct Domain(pub String)`. -/
structure Domain where
  val : String
deriving DecidableEq, Repr

/-- `Mailbox` from `src/command.rs` (field `local` is a Lean keyword, so it
is called `local_` here). -/
structure Mailbox where
  local_ : String
  domain : Domain
deriving DecidableEq, Repr

/-- `Command` from `src/command.rs`. -/
inductive Command where
  | HELO (d : Domain)
  | EHLO (d : Domain)
  | RCPT (m : Mailbox)
  | FROM (m : Mailbox)
  | DATA
  | RSET
  | QUIT
deriving DecidableEq, Repr

/-- `Response` from `src/response.rs`. -/
inductive Response where
  | Goodbye
  | Ok
  | StartData
  | TooManyRecipients
  | SyntaxError
  | OutOfSequence
  | NotImplemented
  | RecipientNotLocal
  | InvalidRecipient
  | TransactionFailed
  | Greeting (name : String)
  | Helo (name : String)
  | Ehlo (name : String)
deriving DecidableEq, Repr

/-- `Response::to_response` from `src/response.rs`. -/
def Response.to_response : Response → String
  | Response.Goodbye => "221 Goodbye!\r\n"
  | Response.Ok => "250 Ok\r\n"
  | Response.StartData => "354 Go ahead\r\n"
  | Response.TooManyRecipients => "452 Too many recipients\r\n"
  | Response.SyntaxError => "500 Syntax error\r\n"
  | Response.OutOfSequence => "503 Command out of sequence\r\n"
  | Response.NotImplemented => "504 Command not implemented\r\n"
  | Response.RecipientNotLocal => "550 User not local\r\n"
  | Response.InvalidRecipient => "554 No valid recipient\r\n"
  | Response.TransactionFailed => "554 Transaction failed\r\n"
  | Response.Greeting name => "220 " ++ name ++ " ESMTP\r\n"
  | Response.Helo name => "250 " ++ name ++ " ESMTP\r\n"
  | Response.Ehlo name => "250 " ++ name ++ " ESMTP\r\n"

/-! ## Spec-modelled line grammar (spec §4.2)

The per-line command parser `parse_command` and the buffered parser
`parse` are called by `src/session.rs` and tested by
`src/parser/tests.rs`, but their definitions are missing from the source
tree; they are modelled here from the spec's §4.2 contract and grammar
table. -/

/-- ASCII upper-casing of a single character (for the case-insensitive
verb match of spec §4.2). -/
def asciiUpper (c : Char) : Char :=
  if 97 ≤ c.toNat && c.toNat ≤ 122 then Char.ofNat (c.toNat - 32) else c

/-- Strip `pre` from the front of `l`, comparing case-insensitively;
`none` if `pre` is not a (case-insensitive) prefix. -/
def stripCIAux : List Char → List Char → Option (List Char)
  | [], l => some l
  | _ :: _, [] => none
  | p :: ps, c :: cs => if asciiUpper c = asciiUpper p then stripCIAux ps cs else none

/-- Case-insensitive equality of two character lists. -/
def ciEq (a b : List Char) : Bool := a.map asciiUpper = b.map asciiUpper

/-- Modelled from the spec: the tail of a domain label,
`alphanumeric+ ("-" alphanumeric+)*` after its first character
(spec §4.2 address grammar; hyphens interior, never consecutive). -/
def labelRest : List Char → Bool
  | [] => true
  | c :: rest =>
    if asciiAlnum c then labelRest rest
    else if c = '-' then
      match rest with
      | [] => false
      | d :: rest2 => asciiAlnum d && labelRest rest2
    else false

/-- Modelled from the spec: a domain label,
`subdomain = alphanumeric+ ("-" alphanumeric+)*` (spec §4.2). -/
def labelB : List Char → Bool
  | [] => false
  | c :: rest => asciiAlnum c && labelRest rest

/-- Split a character list at every dot. -/
def splitDots : List Char → List (List Char)
  | [] => [[]]
  | c :: rest =>
    if c = '.' then [] :: splitDots rest
    else
      match splitDots rest with
      | x :: xs => (c :: x) :: xs
      | [] => [[c]]

/-- Modelled from the spec: `domain = subdomain ("." subdomain)*`
(spec §4.2), as a whole-string recogniser. -/
def specDomainB (l : List Char) : Bool := (splitDots l).all labelB

/-- Modelled from the spec: `atext` = ASCII letter, digit, or one of the
listed specials (spec §4.2). -/
def atextB (c : Char) : Bool :=
  asciiAlnum c ||
    c ∈ ['!', '#', '$', '%', '&', Char.ofNat 39, '*', '+', '-', '/', '=',
         '?', '^', '_', Char.ofNat 96, Char.ofNat 123, '|', Char.ofNat 125, '~']

/-- Modelled from the spec: the tail of a dot-string,
`dot-string = atom ("."? atom)*` after its first character (spec §4.2;
adjacent atoms without a dot are the source's known laxity). -/
def dotRest : List Char → Bool
  | [] => true
  | c :: rest =>
    if atextB c then dotRest rest
    else if c = '.' then
      match rest with
      | [] => false
      | d :: rest2 => atextB d && dotRest rest2
    else false

/-- Modelled from the spec: a whole dot-string (spec §4.2). -/
def dotStringB : List Char → Bool
  | [] => false
  | c :: rest => atextB c && dotRest rest

/-- Modelled from the spec: `qtext` = ASCII 32..=33, 35..=91, 93..=126
(spec §4.2). -/
def qtextB (c : Char) : Bool :=
  (32 ≤ c.toNat && c.toNat ≤ 33) || (35 ≤ c.toNat && c.toNat ≤ 91) ||
    (93 ≤ c.toNat && c.toNat ≤ 126)

/-- Modelled from the spec: scan the inside of a quoted-string up to the
closing quote; content (kept verbatim, including quoted-pair backslashes,
per the data model of spec §3) and the remainder after the quote. -/
def qScan : List Char → Option (List Char × List Char)
  | [] => none
  | c :: rest =>
    if c = '"' then some ([], rest)
    else if c = '\\' then
      match rest with
      | [] => none
      | d :: rest2 =>
        if 32 ≤ d.toNat && d.toNat ≤ 126 then
          match qScan rest2 with
          | some (cs, r) => some (c :: d :: cs, r)
          | none => none
        else none
    else if qtextB c then
      match qScan rest with
      | some (cs, r) => some (c :: cs, r)
      | none => none
    else none

/-- Modelled from the spec: `mailbox = localpart "@" domain`, the whole
list must be consumed (spec §4.2). -/
def parseMailboxChars (l : List Char) : Option Mailbox :=
  match l with
  | '"' :: t =>
    match qScan t with
    | some (content, rest) =>
      if content = [] then none
      else
        match rest with
        | '@' :: dom =>
          if specDomainB dom then some ⟨String.mk content, ⟨String.mk dom⟩⟩ else none
        | _ => none
    | none => none
  | _ =>
    let pre := l.takeWhile fun c => atextB c || c = '.'
    let rest := l.dropWhile fun c => atextB c || c = '.'
    if dotStringB pre then
      match rest with
      | '@' :: dom =>
        if specDomainB dom then some ⟨String.mk pre, ⟨String.mk dom⟩⟩ else none
      | _ => none
    else none

/-- Modelled from the spec: the argument of MAIL FROM / RCPT TO — an
optional single space, then `<mailbox>` ending the line (spec §4.2). -/
def parseAngledMailbox (l : List Char) : Option Mailbox :=
  let l2 := match l with
    | ' ' :: t => t
    | _ => l
  match l2 with
  | '<' :: t =>
    match t.getLast? with
    | some '>' => parseMailboxChars t.dropLast
    | _ => none
  | _ => none

/-- Modelled from the spec: the per-line command grammar of §4.2 — a line
parses iff exactly one table row matches the entire line (verb
case-insensitive, arguments case-sensitive); otherwise `none`. -/
def parse_commandL (l : List Char) : Option Command :=
  if let some rest := stripCIAux "EHLO ".data l then
    if specDomainB rest then some (Command.EHLO ⟨String.mk rest⟩) else none
  else if let some rest := stripCIAux "HELO ".data l then
    if specDomainB rest then some (Command.HELO ⟨String.mk rest⟩) else none
  else if let some rest := stripCIAux "MAIL FROM:".data l then
    (parseAngledMailbox rest).map Command.FROM
  else if let some rest := stripCIAux "RCPT TO:".data l then
    (parseAngledMailbox rest).map Command.RCPT
  else if ciEq l "DATA".data then some Command.DATA
  else if ciEq l "RSET".data then some Command.RSET
  else if ciEq l "QUIT".data then some Command.QUIT
  else none

/-- Split a buffer into the complete lines (terminated by a newline, the
newline itself removed) and the trailing fragment after the last newline. -/
def splitLines : List Char → List (List Char) × List Char
  | [] => ([], [])
  | c :: rest =>
    if c = '\n' then
      ([] :: (splitLines rest).1, (splitLines rest).2)
    else
      match splitLines rest with
      | (l :: ls, t) => ((c :: l) :: ls, t)
      | ([], t) => ([], c :: t)

/-- Strip one trailing `\r` (the CR of a CR LF line terminator). -/
def stripCrL (l : List Char) : List Char :=
  if l.getLast? = some '\r' then l.dropLast else l

/-- Modelled from the spec: the buffered command parser of §4.2 — the
ordered `(line, parsed-or-failure)` pairs for every complete line, plus
the trailing fragment after the last newline as the tail (the source
returns `Option<&str>`; the empty tail represents `None`). -/
def parse (s : String) : List (String × Option Command) × String :=
  ((splitLines s.data).1.map fun l =>
      (String.mk (stripCrL l), parse_commandL (stripCrL l)),
   String.mk (splitLines s.data).2)

/-! ## Spec-modelled DATA body decoder (spec §4.3) -/

/-- Modelled from the spec: the line scanner of the DATA decoder (§4.3).
`cur` holds the reversed characters of the current (not yet terminated)
line. Each complete line has its CR stripped; a line of a single `.`
ends the body (everything after it is the raw tail); otherwise a leading
`.` is stripped (dot-stuffing reversal) and the line is a body line. If
input ends without the terminator, the unfinished line is the tail. -/
def dataScan : List Char → List Char → Bool × List (List Char) × List Char
  | cur, [] => (false, [], cur.reverse)
  | cur, c :: rest =>
    if c = '\n' then
      let raw := match cur with
        | '\r' :: t => t
        | _ => cur
      let line := raw.reverse
      if line = ['.'] then (true, [], rest)
      else
        let dec := match line with
          | '.' :: t => t
          | _ => line
        ((dataScan [] rest).1, dec :: (dataScan [] rest).2.1, (dataScan [] rest).2.2)
    else dataScan (c :: cur) rest

/-- Join body lines with CR LF, no trailing separator (spec §4.3). -/
def joinCrlf : List (List Char) → List Char
  | [] => []
  | [l] => l
  | l :: rest => l ++ '\r' :: '\n' :: joinCrlf rest

/-- Modelled from the spec: `parse_data_lines` (§4.3) — `(ended, body,
tail)` for a DATA-mode buffer. -/
def parse_data_lines (s : String) : Bool × String × String :=
  (( dataScan [] s.data).1,
   String.mk (joinCrlf (dataScan [] s.data).2.1),
   String.mk (dataScan [] s.data).2.2)

/-! ## Session state machine (`src/session.rs`)

The handler (`src/handler.rs`) is modelled by two Boolean oracles
`hR : Mailbox → Bool` (`recipient_local`) and `hS : SmtpState → Bool`
(`save`), passed as parameters. Socket I/O is out of scope: sends are
assumed to succeed and the per-read `input` function is embedded as a
pure function from (state, remaining, read bytes) to (state, remaining,
replies sent, should-quit flag). -/

/-- `SmtpState` from `src/session.rs` (`from` is a Lean keyword, so the
field is called `from_`). -/
structure SmtpState where
  receiving_data : Bool
  domain : Option Domain
  from_ : Option Mailbox
  recipients : List Mailbox
  data : String
deriving DecidableEq, Repr

/-- `SmtpState::default()` from `src/session.rs`. -/
def SmtpState.initial : SmtpState :=
  { receiving_data := false, domain := none, from_ := none, recipients := [], data := "" }

/-- `SmtpSession::process_helo`. -/
def process_helo (name : String) (st : SmtpState) (d : Domain) : SmtpState × Response :=
  ({ st with domain := some d }, Response.Helo name)

/-- `SmtpSession::process_ehlo`. -/
def process_ehlo (name : String) (st : SmtpState) (d : Domain) : SmtpState × Response :=
  ({ st with domain := some d }, Response.Ehlo name)

/-- `SmtpSession::process_from`. -/
def process_from (st : SmtpState) (m : Mailbox) : SmtpState × Response :=
  if st.domain = none then (st, Response.OutOfSequence)
  else ({ st with from_ := some m }, Response.Ok)

/-- `SmtpSession::process_rcpt`, instrumented: the third component logs
the mailboxes for which `handler.recipient_local` was invoked (the
handler is called exactly at the position of the third guard in the
source). -/
def process_rcptL (hR : Mailbox → Bool) (st : SmtpState) (m : Mailbox) :
    SmtpState × Response × List Mailbox :=
  if st.domain = none then (st, Response.OutOfSequence, [])
  else if 100 ≤ st.recipients.length then (st, Response.TooManyRecipients, [])
  else if hR m = false then (st, Response.RecipientNotLocal, [m])
  else ({ st with recipients := st.recipients ++ [m] }, Response.Ok, [m])

/-- `SmtpSession::process_rcpt` (the instrumented version with the call
log erased). -/
def process_rcpt (hR : Mailbox → Bool) (st : SmtpState) (m : Mailbox) :
    SmtpState × Response :=
  ((process_rcptL hR st m).1, (process_rcptL hR st m).2.1)

/-- `SmtpSession::process_data`. -/
def process_data (st : SmtpState) : SmtpState × Response :=
  if st.domain = none then (st, Response.OutOfSequence)
  else if st.from_ = none then (st, Response.OutOfSequence)
  else if st.recipients.length ≤ 0 then (st, Response.OutOfSequence)
  else ({ st with receiving_data := true }, Response.StartData)

/-- `SmtpSession::process_reset`. -/
def process_reset (st : SmtpState) : SmtpState × Response :=
  ({ st with from_ := none, recipients := [], data := "" }, Response.Ok)

/-- `SmtpSession::process_command`. -/
def process_command (hR : Mailbox → Bool) (name : String) (st : SmtpState) :
    Command → SmtpState × Response
  | Command.HELO d => process_helo name st d
  | Command.EHLO d => process_ehlo name st d
  | Command.FROM m => process_from st m
  | Command.RCPT m => process_rcpt hR st m
  | Command.DATA => process_data st
  | Command.RSET => process_reset st
  | Command.QUIT => (st, Response.Goodbye)

/-- The command loop of `SmtpSession::input`: process each parsed line in
order, a failed parse replying `SyntaxError`; stop (and report quit) when
a reply is `Goodbye`. Returns (state, replies, quit). -/
def runCmds (hR : Mailbox → Bool) (name : String) :
    SmtpState → List (String × Option Command) → SmtpState × List Response × Bool
  | st, [] => (st, [], false)
  | st, (_, some c) :: rest =>
    let pr := process_command hR name st c
    if pr.2 = Response.Goodbye then (pr.1, [pr.2], true)
    else
      let r := runCmds hR name pr.1 rest
      (r.1, pr.2 :: r.2.1, r.2.2)
  | st, (_, none) :: rest =>
    let r := runCmds hR name st rest
    (r.1, Response.SyntaxError :: r.2.1, r.2.2)

/-- The DATA-mode branch of `SmtpSession::input` (lines 118–141 of
`src/session.rs`): when `receiving_data`, run the decoder on the buffer,
append its body to `state.data`; if it reports end-of-data, call
`handler.save` on the accumulated state, reply `Ok` / `TransactionFailed`,
and reset `receiving_data` and `data`; the decoder's tail becomes the
buffer passed on to the command parser. -/
def dataPhase (hS : SmtpState → Bool) (st : SmtpState) (full : String) :
    SmtpState × List Response × String :=
  if st.receiving_data then
    if (parse_data_lines full).1 then
      ({ st with data := "", receiving_data := false },
       [if hS { st with data := st.data ++ (parse_data_lines full).2.1 } then Response.Ok
        else Response.TransactionFailed],
       (parse_data_lines full).2.2)
    else ({ st with data := st.data ++ (parse_data_lines full).2.1 }, [], (parse_data_lines full).2.2)
  else (st, [], full)

/-- `SmtpSession::input`: prepend the remaining tail to the newly read
bytes, run the DATA phase if in DATA mode, parse the rest into command
lines, store the parser's tail as the new remainder, and process the
commands in order. Returns (state, remaining, replies, quit). -/
def inputFn (hR : Mailbox → Bool) (hS : SmtpState → Bool) (name : String)
    (st : SmtpState) (remaining input : String) :
    SmtpState × String × List Response × Bool :=
  let dp := dataPhase hS st (remaining ++ input)
  let p := parse dp.2.2
  let rc := runCmds hR name dp.1 p.1
  (rc.1, p.2, dp.2.1 ++ rc.2.1, rc.2.2)

/-- The reachable (state, remaining) pairs of a session: the freshly
constructed session, and anything produced from a reachable one by one
call of `input` on arbitrary read bytes (handler and server name fixed
for the session). -/
inductive Reach (hR : Mailbox → Bool) (hS : SmtpState → Bool) (name : String) :
    SmtpState → String → Prop
  | init : Reach hR hS name SmtpState.initial ""
  | step (st : SmtpState) (rem inp : String) : Reach hR hS name st rem →
      Reach hR hS name (inputFn hR hS name st rem inp).1 (inputFn hR hS name st rem inp).2.1

/-- A handler whose `recipient_local` accepts everything. -/
def hTrue : Mailbox → Bool := fun _ => true

/-- A handler whose `save` accepts everything. -/
def hSTrue : SmtpState → Bool := fun _ => true

/-! ## Concrete fixtures used in counterexamples and witnesses -/

/-- The mailbox `a@nexium.app`. -/
def mbA : Mailbox := ⟨"a", ⟨"nexium.app"⟩⟩

/-- The mailbox `b@nexium.app`. -/
def mbB : Mailbox := ⟨"b", ⟨"nexium.app"⟩⟩

/-- A session state in DATA mode with a full envelope. -/
def stD : SmtpState :=
  { receiving_data := true, domain := some ⟨"nexium.app"⟩, from_ := some mbA,
    recipients := [mbB], data := "" }

/-- A `save` handler that accepts exactly when the accumulated body is the
decoded dot-stuffing scenario body; its acceptance observes the state the
session passes to `save`. -/
def hSCheck : SmtpState → Bool := fun st => st.data == "hidden\r\n.dotted"

/-- A single read containing a complete envelope, DATA, and a pipelined
RSET behind it. -/
def pipelinedInput : String :=
  "EHLO nexium.app\r\nMAIL FROM:<a@nexium.app>\r\nRCPT TO:<b@nexium.app>\r\nDATA\r\nRSET\r\n"

/-- First read of the handoff scenario: envelope and DATA. -/
def c1Step1 : SmtpState × String × List Response × Bool :=
  inputFn hTrue hSTrue "Postbus" SmtpState.initial ""
    "EHLO nexium.app\r\nMAIL FROM:<a@nexium.app>\r\nRCPT TO:<b@nexium.app>\r\nDATA\r\n"

/-- Second read of the handoff scenario: a body line and the end-of-data
marker, triggering the handoff to `handler.save`. -/
def c1Step2 : SmtpState × String × List Response × Bool :=
  inputFn hTrue hSTrue "Postbus" c1Step1.1 c1Step1.2.1 "Hello\r\n.\r\n"

/-! ## Theorems -/

/-- C9: every `Response` variant serialises to exactly the §6.3 wire
bytes followed by CR LF; `Greeting(n)`, `Helo(n)` and `Ehlo(n)` carry the
server name. -/
theorem response_wire_bytes (n : String) :
    Response.to_response Response.Goodbye = "221 Goodbye!\r\n" ∧
    Response.to_response Response.Ok = "250 Ok\r\n" ∧
    Response.to_response Response.StartData = "354 Go ahead\r\n" ∧
    Response.to_response Response.TooManyRecipients = "452 Too many recipients\r\n" ∧
    Response.to_response Response.SyntaxError = "500 Syntax error\r\n" ∧
    Response.to_response Response.OutOfSequence = "503 Command out of sequence\r\n" ∧
    Response.to_response Response.NotImplemented = "504 Command not implemented\r\n" ∧
    Response.to_response Response.RecipientNotLocal = "550 User not local\r\n" ∧
    Response.to_response Response.InvalidRecipient = "554 No valid recipient\r\n" ∧
    Response.to_response Response.TransactionFailed = "554 Transaction failed\r\n" ∧
    Response.to_response (Response.Greeting n) = "220 " ++ n ++ " ESMTP\r\n" ∧
    Response.to_response (Response.Helo n) = "250 " ++ n ++ " ESMTP\r\n" ∧
    Response.to_response (Response.Ehlo n) = "250 " ++ n ++ " ESMTP\r\n" :=
  ⟨rfl, rfl, rfl, rfl, rfl, rfl, rfl, rfl, rfl, rfl, rfl, rfl, rfl⟩

/-- C2 (code bug): the subdomain parser accepts the non-ASCII character
`š` (U+0161), because the source applies nom's byte predicate
`is_alphanumeric` to `c as u8`, i.e. to the scalar value truncated mod
256 (0x161 mod 256 = 0x61 = `a`); so an accepted subdomain is *not*
always made of ASCII alphanumerics and hyphens. -/
theorem subdomain_accepts_non_ascii :
    parse_subdomain "š ".data = PRes.ok ['š'] [' '] ∧ asciiAlnum 'š' = false := by
  decide

/-- C4: the dot-stuffing scenario. Feeding `.hidden\r\n..dotted\r\n.\r\n`
to a session in DATA mode ends the body; the state handed to
`handler.save` carries exactly `data = "hidden\r\n.dotted"` (the `Ok`
reply is produced by `hSCheck`, which accepts only that body), and the
session leaves DATA mode with `data` cleared. -/
theorem data_dot_stuffing_scenario :
    parse_data_lines ".hidden\r\n..dotted\r\n.\r\n" = (true, "hidden\r\n.dotted", "") ∧
    (inputFn hTrue hSCheck "Postbus" stD "" ".hidden\r\n..dotted\r\n.\r\n").2.2.1 =
      [Response.Ok] ∧
    (inputFn hTrue hSCheck "Postbus" stD "" ".hidden\r\n..dotted\r\n.\r\n").1.data = "" ∧
    (inputFn hTrue hSCheck "Postbus" stD "" ".hidden\r\n..dotted\r\n.\r\n").1.receiving_data
      = false := by
  decide

/-- C1 (counterexample): after a message handoff (`save` was invoked and
replied `Ok`), the session state still carries the envelope: `from` and
`recipients` are *not* cleared, contradicting the claim that the triple
(`from`, `recipients`, `data`) is cleared by successful handoff. -/
theorem handoff_keeps_envelope_cex :
    c1Step2.2.2.1 = [Response.Ok] ∧
    ¬ (c1Step2.1.from_ = none ∧ c1Step2.1.recipients = []) ∧
    c1Step2.1.from_ = some mbA ∧ c1Step2.1.recipients = [mbB] := by
  decide

/-- C3 (code bug): a reachable session state with `receiving_data = true`
but `from = none` and no recipients. A single read pipelines
`EHLO … MAIL FROM … RCPT TO … DATA … RSET`; the command loop of
`SmtpSession::input` keeps processing the already-parsed lines after DATA
switched the session into DATA mode, so RSET clears the envelope while
`receiving_data` stays true — violating the spec's invariant. -/
theorem reachable_receiving_data_without_envelope :
    ∃ (st : SmtpState) (rem : String),
      Reach hTrue hSTrue "Postbus" st rem ∧
      st.receiving_data = true ∧ st.from_ = none ∧ st.recipients = [] := by
  refine ⟨(inputFn hTrue hSTrue "Postbus" SmtpState.initial "" pipelinedInput).1,
          (inputFn hTrue hSTrue "Postbus" SmtpState.initial "" pipelinedInput).2.1,
          Reach.step _ _ _ Reach.init, ?_, ?_, ?_⟩ <;> decide

/-- C8 (counterexample): on the claim's own example input `host.` — a
valid domain followed by a trailing dot at the end of input — the
source's streaming domain parser does not succeed: it returns
`Incomplete` (it cannot know whether more of the domain follows). -/
theorem domain_trailing_dot_eof_cex :
    parse_domain "host.".data = PRes.incomplete := by
  decide

/-- C5: RCPT TO checks its guards in the order (domain set,
fewer than 100 recipients, `handler.recipient_local`); the first failing
guard determines the reply (`OutOfSequence`, `TooManyRecipients`,
`RecipientNotLocal`), a failing guard leaves the state untouched, and
when all pass the mailbox is appended and the reply is `Ok`. -/
theorem rcpt_guard_order (hR : Mailbox → Bool) (st : SmtpState) (m : Mailbox) :
    (st.domain = none → process_rcpt hR st m = (st, Response.OutOfSequence)) ∧
    (st.domain ≠ none → 100 ≤ st.recipients.length →
      process_rcpt hR st m = (st, Response.TooManyRecipients)) ∧
    (st.domain ≠ none → st.recipients.length < 100 → hR m = false →
      process_rcpt hR st m = (st, Response.RecipientNotLocal)) ∧
    (st.domain ≠ none → st.recipients.length < 100 → hR m = true →
      process_rcpt hR st m =
        ({ st with recipients := st.recipients ++ [m] }, Response.Ok)) := by
  refine ⟨?_, ?_, ?_, ?_⟩
  · intro h1
    simp [process_rcpt, process_rcptL, h1]
  · intro h1 h2
    simp [process_rcpt, process_rcptL, h1, h2]
  · intro h1 h2 h3
    have h2' : ¬ 100 ≤ st.recipients.length := by omega
    simp [process_rcpt, process_rcptL, h1, h2', h3]
  · intro h1 h2 h3
    have h2' : ¬ 100 ≤ st.recipients.length := by omega
    simp [process_rcpt, process_rcptL, h1, h2', h3]

/-- Witness for `rcpt_guard_order`: all guards pass on a concrete state
and the mailbox is appended. -/
theorem rcpt_guard_order_witness :
    process_rcpt hTrue { SmtpState.initial with domain := some ⟨"nexium.app"⟩ } mbB =
      ({ SmtpState.initial with domain := some ⟨"nexium.app"⟩, recipients := [mbB] },
       Response.Ok) :=
  ((rcpt_guard_order hTrue { SmtpState.initial with domain := some ⟨"nexium.app"⟩ }
      mbB).2.2.2 (by decide) (by decide) rfl).trans (by decide)

/-- C10: `handler.recipient_local` is consulted exactly when the two
earlier RCPT guards pass (domain set and fewer than 100 recipients) — the
instrumented call log is `[m]` in that case and empty otherwise — and
whenever a guard fails the whole outcome is independent of the handler. -/
theorem rcpt_handler_iff_guards (hR : Mailbox → Bool) (st : SmtpState) (m : Mailbox) :
    ((process_rcptL hR st m).2.2 =
      if st.domain ≠ none ∧ st.recipients.length < 100 then [m] else []) ∧
    (∀ h2 : Mailbox → Bool, st.domain = none ∨ 100 ≤ st.recipients.length →
      process_rcptL hR st m = process_rcptL h2 st m) := by
  constructor
  · by_cases h1 : st.domain = none
    · simp [process_rcptL, h1]
    · by_cases h2 : 100 ≤ st.recipients.length
      · have h2' : ¬ st.recipients.length < 100 := by omega
        simp [process_rcptL, h1, h2, h2']
      · have h2' : st.recipients.length < 100 := by omega
        by_cases h3 : hR m = false <;> simp [process_rcptL, h1, h2, h2', h3]
  · intro hOther hor
    rcases hor with h1 | h2
    · simp [process_rcptL, h1]
    · by_cases h1 : st.domain = none
      · simp [process_rcptL, h1]
      · simp [process_rcptL, h1, h2]

/-- Witness for `rcpt_handler_iff_guards`: with no HELO domain the call
log is empty and the outcome matches that under a rejecting handler. -/
theorem rcpt_handler_iff_guards_witness :
    (process_rcptL hTrue SmtpState.initial mbB).2.2 = [] ∧
    process_rcptL hTrue SmtpState.initial mbB =
      process_rcptL (fun _ => false) SmtpState.initial mbB :=
  ⟨((rcpt_handler_iff_guards hTrue SmtpState.initial mbB).1).trans (by decide),
   (rcpt_handler_iff_guards hTrue SmtpState.initial mbB).2 (fun _ => false) (Or.inl rfl)⟩

/-- C1 (amended): RSET clears `from`, `recipients` and `data` and leaves
`domain` (and `receiving_data`) unchanged; a message handoff — the
decoder reports end-of-data and `handler.save` is invoked, whatever it
returns — resets `receiving_data` and `data` but leaves `from`,
`recipients` and `domain` unchanged (both equations are record updates
touching no other field). -/
theorem rset_and_handoff_effect :
    (∀ st : SmtpState,
      process_reset st =
        ({ st with from_ := none, recipients := [], data := "" }, Response.Ok)) ∧
    (∀ (hS : SmtpState → Bool) (st : SmtpState) (full : String),
      st.receiving_data = true → (parse_data_lines full).1 = true →
      dataPhase hS st full =
        ({ st with data := "", receiving_data := false },
         [if hS { st with data := st.data ++ (parse_data_lines full).2.1 } then Response.Ok
          else Response.TransactionFailed],
         (parse_data_lines full).2.2)) := by
  constructor
  · intro st; rfl
  · intro hS st full h1 h2
    simp [dataPhase, h1, h2]

/-- Witness for `rset_and_handoff_effect`, at a DATA-mode state with a
set envelope and the buffer `.\r\n`. -/
theorem rset_and_handoff_effect_witness :
    process_reset stD = ({ stD with from_ := none, recipients := [], data := "" },
      Response.Ok) ∧
    dataPhase hSTrue stD ".\r\n" =
      ({ stD with data := "", receiving_data := false }, [Response.Ok], "") :=
  ⟨rset_and_handoff_effect.1 stD,
   (rset_and_handoff_effect.2 hSTrue stD ".\r\n" rfl (by decide)).trans (by decide)⟩

/-- Any single processed command keeps the recipient list within the
100-recipient cap (`process_rcpt` appends only below the cap). -/
theorem process_command_recip_le (hR : Mailbox → Bool) (name : String)
    (st : SmtpState) (c : Command) (h : st.recipients.length ≤ 100) :
    (process_command hR name st c).1.recipients.length ≤ 100 := by
  cases c with
  | HELO d => simpa [process_command, process_helo] using h
  | EHLO d => simpa [process_command, process_ehlo] using h
  | FROM m =>
    simp only [process_command, process_from]
    split_ifs <;> simpa using h
  | RCPT m =>
    simp only [process_command, process_rcpt, process_rcptL]
    split_ifs with h1 h2 h3 <;> simp_all
    omega
  | DATA =>
    simp only [process_command, process_data]
    split_ifs <;> simpa using h
  | RSET => simp [process_command, process_reset]
  | QUIT => simpa [process_command] using h

/-- The command loop keeps the recipient list within the cap. -/
theorem runCmds_recip_le (hR : Mailbox → Bool) (name : String) :
    ∀ (cmds : List (String × Option Command)) (st : SmtpState),
      st.recipients.length ≤ 100 →
      (runCmds hR name st cmds).1.recipients.length ≤ 100 := by
  intro cmds
  induction cmds with
  | nil => intro st h; simpa [runCmds] using h
  | cons p rest ih =>
    intro st h
    rcases p with ⟨line, oc⟩
    cases oc with
    | none => simpa [runCmds] using ih st h
    | some c =>
      simp only [runCmds]
      split_ifs with hg
      · simpa using process_command_recip_le hR name st c h
      · simpa using ih _ (process_command_recip_le hR name st c h)

/-- The DATA phase never touches the recipient list. -/
theorem dataPhase_recipients (hS : SmtpState → Bool) (st : SmtpState) (full : String) :
    (dataPhase hS st full).1.recipients = st.recipients := by
  simp only [dataPhase]
  split_ifs <;> rfl

/-- C6: the 100-recipient cap is an invariant — any single processed
command preserves it, and every session state reachable from the initial
state by arbitrary reads satisfies it. -/
theorem recipients_at_most_100 :
    (∀ (hR : Mailbox → Bool) (name : String) (st : SmtpState) (c : Command),
      st.recipients.length ≤ 100 →
      (process_command hR name st c).1.recipients.length ≤ 100) ∧
    (∀ (hR : Mailbox → Bool) (hS : SmtpState → Bool) (name : String)
      (st : SmtpState) (rem : String), Reach hR hS name st rem →
      st.recipients.length ≤ 100) := by
  constructor
  · exact fun hR name st c h => process_command_recip_le hR name st c h
  · intro hR hS name st rem h
    induction h with
    | init => simp [SmtpState.initial]
    | step st0 rem0 inp0 h0 ih =>
      show (runCmds hR name (dataPhase hS st0 (rem0 ++ inp0)).1
          (parse (dataPhase hS st0 (rem0 ++ inp0)).2.2).1).1.recipients.length ≤ 100
      exact runCmds_recip_le hR name _ _ (by rw [dataPhase_recipients]; exact ih)

/-- Witness for `recipients_at_most_100`: the cap holds after processing
a RCPT command on a ready state, and at the initial reachable state. -/
theorem recipients_at_most_100_witness :
    (process_command hTrue "Postbus" { SmtpState.initial with domain := some ⟨"nexium.app"⟩ }
      (Command.RCPT mbB)).1.recipients.length ≤ 100 ∧
    SmtpState.initial.recipients.length ≤ 100 :=
  ⟨recipients_at_most_100.1 hTrue "Postbus" _ (Command.RCPT mbB) (by decide),
   recipients_at_most_100.2 hTrue hSTrue "Postbus" _ _ Reach.init⟩

/-- A buffer with no newline is all tail: no complete line is produced. -/
theorem splitLines_no_nl : ∀ l : List Char, '\n' ∉ l → splitLines l = ([], l) := by
  intro l
  induction l with
  | nil => intro _; rfl
  | cons c rest ih =>
    intro h
    have hc : ¬ c = '\n' := by
      rintro rfl
      exact h (List.mem_cons_self _ _)
    have hr : '\n' ∉ rest := fun hm => h (List.mem_cons_of_mem _ hm)
    simp only [splitLines, if_neg hc, ih hr]

/-- A buffer ending in a newline splits into at least one line and an
empty tail. -/
theorem splitLines_endNl : ∀ l : List Char,
    ∃ x xs, splitLines (l ++ ['\n']) = (x :: xs, []) := by
  intro l
  induction l with
  | nil => exact ⟨[], [], rfl⟩
  | cons c rest ih =>
    obtain ⟨x, xs, hx⟩ := ih
    by_cases hc : c = '\n'
    · subst hc
      refine ⟨[], (splitLines (rest ++ ['\n'])).1, ?_⟩
      simp [splitLines, hx]
    · refine ⟨c :: x, xs, ?_⟩
      simp [splitLines, if_neg hc, hx]

/-- Splitting distributes over append when the left part ends at a line
boundary (its own tail is empty). -/
theorem splitLines_append : ∀ l m : List Char, (splitLines l).2 = [] →
    splitLines (l ++ m) = ((splitLines l).1 ++ (splitLines m).1, (splitLines m).2) := by
  intro l
  induction l with
  | nil => intro m _; simp [splitLines]
  | cons c rest ih =>
    intro m h
    by_cases hc : c = '\n'
    · subst hc
      have h' : (splitLines rest).2 = [] := by
        simpa [splitLines] using h
      simp [splitLines, ih m h']
    · rcases hs : splitLines rest with ⟨ls, t⟩
      cases ls with
      | nil =>
        exfalso
        have hh : (splitLines (c :: rest)).2 = c :: t := by
          simp [splitLines, if_neg hc, hs]
        rw [hh] at h
        exact List.cons_ne_nil c t h
      | cons x xs =>
        have ht : t = [] := by
          have hh : (splitLines (c :: rest)).2 = t := by
            simp [splitLines, if_neg hc, hs]
          rw [hh] at h
          exact h
        subst ht
        have h' : (splitLines rest).2 = [] := by rw [hs]
        have hrec := ih m h'
        rw [hs] at hrec
        simp [splitLines, if_neg hc, hrec, hs]

/-- C7: the buffered parser's tail is exactly the bytes after the last
newline: a newline-free buffer is returned whole as the tail with no
lines; for any split `a ++ "\n" ++ b` with `b` newline-free the tail is
`b`; a buffer ending in a newline has an empty tail; and appending a
newline-free suffix to a buffer ending in a newline returns that suffix
verbatim as the tail without changing the parsed line sequence. -/
theorem buffered_parse_tail :
    (∀ s : String, '\n' ∉ s.data → (parse s).1 = [] ∧ (parse s).2 = s) ∧
    (∀ a b : String, '\n' ∉ b.data → (parse (a ++ "\n" ++ b)).2 = b) ∧
    (∀ s : String, s.data.getLast? = some '\n' → (parse s).2 = "") ∧
    (∀ a b : String, a.data.getLast? = some '\n' → '\n' ∉ b.data →
      (parse (a ++ b)).2 = b ∧ (parse (a ++ b)).1 = (parse a).1) := by
  have hdata : ∀ a b : String, (a ++ b).data = a.data ++ b.data := fun a b => rfl
  have hmk : ∀ s : String, String.mk s.data = s := fun s => rfl
  have hlast : ∀ s : String, s.data.getLast? = some '\n' → (splitLines s.data).2 = [] := by
    intro s hl
    have hne : s.data ≠ [] := by
      intro hh
      rw [hh] at hl
      exact Option.noConfusion hl
    have hdec : s.data.dropLast ++ [s.data.getLast hne] = s.data :=
      List.dropLast_append_getLast hne
    have hgl : s.data.getLast hne = '\n' := by
      have := List.getLast?_eq_getLast s.data hne
      rw [this] at hl
      exact Option.some.inj hl
    rw [hgl] at hdec
    obtain ⟨x, xs, hx⟩ := splitLines_endNl s.data.dropLast
    rw [hdec] at hx
    rw [hx]
  refine ⟨?_, ?_, ?_, ?_⟩
  · intro s h
    constructor
    · simp only [parse, splitLines_no_nl s.data h]
      rfl
    · simp only [parse, splitLines_no_nl s.data h]
  · intro a b h
    have h1 : (a ++ "\n" ++ b).data = (a.data ++ ['\n']) ++ b.data := by
      rw [hdata, hdata]
    obtain ⟨x, xs, hx⟩ := splitLines_endNl a.data
    have h2 := splitLines_append (a.data ++ ['\n']) b.data (by rw [hx])
    simp only [parse, h1, h2, splitLines_no_nl b.data h]
  · intro s hl
    simp only [parse, hlast s hl]
  · intro a b ha hb
    have h2 := splitLines_append a.data b.data (hlast a ha)
    constructor
    · simp only [parse, hdata, h2, splitLines_no_nl b.data hb]
    · simp only [parse, hdata, h2, splitLines_no_nl b.data hb, List.append_nil]

/-- Witness for `buffered_parse_tail`, mirroring the repo's
`parse_unfinished` test: a complete EHLO line followed by the fragment
`MAIL FR`. -/
theorem buffered_parse_tail_witness :
    (parse ("EHLO nexium.app\r\n" ++ "MAIL FR")).2 = "MAIL FR" ∧
    (parse ("EHLO nexium.app\r\n" ++ "MAIL FR")).1 = (parse "EHLO nexium.app\r\n").1 :=
  buffered_parse_tail.2.2.2 "EHLO nexium.app\r\n" "MAIL FR" (by decide) (by decide)

/-- One unfolding of the fuelled `many0` loop. -/
theorem many0F_succ (p : List Char → PRes (List Char)) (fuel : Nat) (input : List Char) :
    many0F p (fuel + 1) input =
      match p input with
      | PRes.err => PRes.ok [] input
      | PRes.incomplete => PRes.incomplete
      | PRes.ok v rest =>
        if rest = input then PRes.err
        else
          match many0F p fuel rest with
          | PRes.ok vs r2 => PRes.ok (v ++ vs) r2
          | e => e := rfl

/-- When the input contains a character outside `p`, `many0(take1 p)`
succeeds (no `Incomplete`): the maximal run stops at that character, and
the remainder starts with a character failing `p`. -/
theorem many0F_take1_rest (p : Char → Bool) :
    ∀ (l : List Char) (fuel : Nat), l.length < fuel → (∃ x ∈ l, p x = false) →
      ∃ run c r2, many0F (take1 p) fuel l = PRes.ok run (c :: r2) ∧ p c = false := by
  intro l
  induction l with
  | nil =>
    intro fuel _ h
    obtain ⟨x, hx, _⟩ := h
    exact absurd hx (List.not_mem_nil x)
  | cons c0 l' ih =>
    intro fuel hlen h
    cases fuel with
    | zero => omega
    | succ f =>
      by_cases hc0 : p c0 = true
      · obtain ⟨x, hx, hpx⟩ := h
        have hxl : x ∈ l' := by
          cases List.mem_cons.mp hx with
          | inl he => rw [he] at hpx; rw [hpx] at hc0; exact Bool.noConfusion hc0
          | inr hm => exact hm
        obtain ⟨run, c, r2, heq, hpc⟩ := ih f (by simp at hlen; omega) ⟨x, hxl, hpx⟩
        refine ⟨c0 :: run, c, r2, ?_, hpc⟩
        rw [many0F_succ]
        have hne : ¬ l' = c0 :: l' := fun hh => List.cons_ne_self c0 l' hh.symm
        simp [take1, hc0, if_neg hne, heq]
      · have hc0' : p c0 = false := by simpa using hc0
        refine ⟨[], c0, l', ?_, hc0'⟩
        rw [many0F_succ]
        simp [take1, hc0']

/-- `parse_ldhstr` fails on any input containing a character that is
neither alphanumeric-byte nor a hyphen: the greedy inner run consumes the
whole let-dig-hyphen prefix, and the final `parse_letdig` then faces that
character. -/
theorem ldhstr_err_of_mem (l : List Char) (h : ∃ x ∈ l, ldhPred x = false) :
    parse_ldhstr l = PRes.err := by
  obtain ⟨run, c, r2, heq, hpc⟩ := many0F_take1_rest ldhPred l (l.length + 1) (by omega) h
  have hc : predLD c = false := by
    have := hpc
    simp [ldhPred] at this
    exact this.1
  simp [parse_ldhstr, heq, parse_letdig, take1, hc]

/-- On any input whose tail contains a non-let-dig-hyphen character,
`parse_subdomain` consumes exactly one `predLD` character. -/
theorem subdomain_single (y : Char) (l : List Char) (hy : predLD y = true)
    (h : ∃ x ∈ l, ldhPred x = false) :
    parse_subdomain (y :: l) = PRes.ok [y] l := by
  have hld : parse_ldhstr l = PRes.err := ldhstr_err_of_mem l h
  have hm : many0F parse_ldhstr (l.length + 1) l = PRes.ok [] l := by
    rw [many0F_succ, hld]
  simp [parse_subdomain, parse_letdig, take1, hy, hm]

/-- The dot is not a let-dig-hyphen character. -/
theorem ldhPred_dot : ldhPred '.' = false := by decide

/-- The loop of `parse_domain` consumes exactly a `domShapeTail` segment
when it is followed by a dot and then a character that cannot start a
subdomain; the dot is left unconsumed. -/
theorem domLoop : ∀ (fuel : Nat) (t : List Char) (c : Char) (r : List Char),
    domShapeTail t = true → predLD c = false → t.length < fuel →
    many0F domTailIter fuel (t ++ '.' :: c :: r) = PRes.ok t ('.' :: c :: r) := by
  intro fuel
  induction fuel with
  | zero => intro t c r _ _ h; omega
  | succ f ih =>
    intro t c r ht hc hlen
    cases t with
    | nil =>
      have hiter : domTailIter ('.' :: c :: r) = PRes.err := by
        simp [domTailIter, opt_tag_dot, parse_subdomain, parse_letdig, take1, hc]
      rw [many0F_succ]
      simp [hiter]
    | cons x t' =>
      by_cases hx : predLD x = true
      · have ht' : domShapeTail t' = true := by
          unfold domShapeTail at ht
          rwa [if_pos hx] at ht
        have hxdot : ¬ x = '.' := by
          rintro rfl
          rw [show predLD '.' = false from by decide] at hx
          exact Bool.noConfusion hx
        have hsub : parse_subdomain (x :: (t' ++ '.' :: c :: r)) =
            PRes.ok [x] (t' ++ '.' :: c :: r) :=
          subdomain_single x _ hx ⟨'.', by simp, ldhPred_dot⟩
        have hiter : domTailIter (x :: (t' ++ '.' :: c :: r)) =
            PRes.ok [x] (t' ++ '.' :: c :: r) := by
          simp [domTailIter, opt_tag_dot, if_neg hxdot, hsub]
        have hne : ¬ (t' ++ '.' :: c :: r) = x :: (t' ++ '.' :: c :: r) :=
          fun hh => List.cons_ne_self x _ hh.symm
        have hrec := ih t' c r ht' hc (by simp at hlen ⊢; omega)
        rw [show (x :: t') ++ '.' :: c :: r = x :: (t' ++ '.' :: c :: r) from rfl,
          many0F_succ]
        simp [hiter, if_neg hne, hrec]
      · have hx' : predLD x = false := by simpa using hx
        by_cases hxe : x = '.'
        · subst hxe
          cases t' with
          | nil => exact absurd ht (by decide)
          | cons d t'' =>
            have hdt : predLD d = true ∧ domShapeTail t'' = true := by
              have := ht
              simp [domShapeTail, hx', Bool.and_eq_true] at this
              exact this
            have hsub : parse_subdomain (d :: (t'' ++ '.' :: c :: r)) =
                PRes.ok [d] (t'' ++ '.' :: c :: r) :=
              subdomain_single d _ hdt.1 ⟨'.', by simp, ldhPred_dot⟩
            have hiter : domTailIter ('.' :: d :: (t'' ++ '.' :: c :: r)) =
                PRes.ok ['.', d] (t'' ++ '.' :: c :: r) := by
              simp [domTailIter, opt_tag_dot, hsub]
            have hne : ¬ (t'' ++ '.' :: c :: r) = '.' :: d :: (t'' ++ '.' :: c :: r) := by
              intro hh
              have hlh := congrArg List.length hh
              simp at hlh
              omega
            have hrec := ih t'' c r hdt.2 hc (by simp at hlen ⊢; omega)
            rw [show ('.' :: d :: t'') ++ '.' :: c :: r =
              '.' :: d :: (t'' ++ '.' :: c :: r) from rfl, many0F_succ]
            simp [hiter, if_neg hne, hrec]
        · unfold domShapeTail at ht
          rw [if_neg hx, if_neg hxe] at ht
          exact Bool.noConfusion ht

/-- C8 (amended): for every input consisting of a valid domain (in the
exact shape the source parser accepts), then a dot, then a character
that cannot start a subdomain, `parse_domain` succeeds, consumes only
the domain, and leaves the trailing dot (and everything after it)
unconsumed. (At end of input after the dot the streaming parser returns
`Incomplete` instead — see the counterexample.) -/
theorem domain_stops_at_trailing_dot (d : List Char) (c : Char) (r : List Char)
    (hd : domShape d = true) (hc : predLD c = false) :
    parse_domain (d ++ '.' :: c :: r) = PRes.ok d ('.' :: c :: r) := by
  cases d with
  | nil => simp [domShape] at hd
  | cons d0 t =>
    have hdt : predLD d0 = true ∧ domShapeTail t = true := by
      have := hd
      simp [domShape, Bool.and_eq_true] at this
      exact this
    have hsub : parse_subdomain (d0 :: (t ++ '.' :: c :: r)) =
        PRes.ok [d0] (t ++ '.' :: c :: r) :=
      subdomain_single d0 _ hdt.1 ⟨'.', by simp, ldhPred_dot⟩
    have hloop := domLoop ((t ++ '.' :: c :: r).length + 1) t c r hdt.2 hc
      (by simp only [List.length_append, List.length_cons]; omega)
    rw [show (d0 :: t) ++ '.' :: c :: r = d0 :: (t ++ '.' :: c :: r) from rfl]
    simp only [List.length_append, List.length_cons] at hloop
    simp [parse_domain, hsub, hloop]

/-- Witness for `domain_stops_at_trailing_dot`, mirroring the repo's
`parse_domain_lastdot` test: `nexium.app.` followed by a newline. -/
theorem domain_stops_at_trailing_dot_witness :
    parse_domain ("nexium.app".data ++ '.' :: '\n' :: []) =
      PRes.ok "nexium.app".data ('.' :: '\n' :: []) :=
  domain_stops_at_trailing_dot "nexium.app".data '\n' [] (by decide) (by decide)

end Postbus
